import Mathlib

/-!
Verification of the `procfs` package (procfs_linux.go): a shallow embedding of
`containerNameFromProcCgroup`, `GetFullContainerName`, `PKill`, `PidOf` and
`getPids`, together with theorems settling the specification claims.

Modelling conventions:
* Go byte/rune strings are modelled as Lean `String` / `List Char`; this is
  exact for the ASCII data handled here (the NUL separator of the cmdline
  record is the character `'\x00'`).
* The filesystem is passed in explicitly: the `/proc` directory is a
  `ProcRoot` value (open success flag plus the sequence of `Readdir` batch
  results), per-file reads are functions or per-entry fields.
* Go's `(value, error)` returns are modelled with `Except`/`Option`.
* The two regular expressions actually built by the code,
  `"(^|/)" ++ name ++ "$"` (PidOf) and `name` itself (PKill), are modelled by
  a small regex AST with the semantics of Go's unanchored `MatchString`;
  this is exact for names made of regexp-literal characters, for which
  `regexp.Compile` always succeeds (so the compile-error branches of PidOf
  and PKill are not taken).
-/

namespace Procfs

/-- Go `unicode.IsSpace`: the Unicode white-space code points. -/
def goIsSpace (c : Char) : Bool :=
  c == ' ' || c == '\t' || c == '\n' || c == '\x0b' || c == '\x0c' || c == '\r' ||
  c == '\x85' || c == '\xA0' || c.toNat == 0x1680 ||
  (0x2000 ≤ c.toNat && c.toNat ≤ 0x200A) ||
  c.toNat == 0x2028 || c.toNat == 0x2029 || c.toNat == 0x202F ||
  c.toNat == 0x205F || c.toNat == 0x3000

/-- Go `strings.TrimSpace` on a character list: drop leading and trailing
white space. -/
def goTrimSpace (cs : List Char) : List Char :=
  ((cs.dropWhile goIsSpace).reverse.dropWhile goIsSpace).reverse

/-- Split off the part of `cs` before the first occurrence of `sep`,
returning it together with the remainder after `sep`; `none` when `sep`
does not occur. -/
def splitFirst (sep : Char) : List Char → Option (List Char × List Char)
  | [] => none
  | c :: cs =>
    if c == sep then some ([], cs)
    else (splitFirst sep cs).map (fun p => (c :: p.1, p.2))

/-- Go `strings.SplitN s sep n` (and `bytes.SplitN` for a one-byte
separator): split into at most `n` fields. -/
def goSplitN (sep : Char) : Nat → List Char → List (List Char)
  | 0, _ => []
  | 1, cs => [cs]
  | n + 2, cs =>
    match splitFirst sep cs with
    | none => [cs]
    | some (l, r) => l :: goSplitN sep (n + 1) r

/-- Go `strings.Split s sep` for a one-character separator: split on every
occurrence. -/
def goSplit (sep : Char) : List Char → List (List Char)
  | [] => [[]]
  | c :: cs =>
    let r := goSplit sep cs
    if c == sep then [] :: r
    else
      match r with
      | [] => [[c]]
      | h :: t => (c :: h) :: t

/-- The guard of the cgroup-parsing loop: the line splits on ":" into exactly
three fields and the middle field is exactly "devices". -/
abbrev devLine (l : List Char) : Prop :=
  (goSplitN ':' 3 l).length = 3 ∧ (goSplitN ':' 3 l).getD 1 [] = "devices".data

/-- The loop of `containerNameFromProcCgroup`: scan the lines, return the
trimmed third field of the first line whose middle field is "devices". -/
def findDevicesLine : List (List Char) → Except String String
  | [] => Except.error "could not find devices cgroup location"
  | line :: rest =>
    let entries := goSplitN ':' 3 line
    if entries.length = 3 ∧ entries.getD 1 [] = "devices".data then
      Except.ok (String.mk (goTrimSpace (entries.getD 2 [])))
    else findDevicesLine rest

/-- `containerNameFromProcCgroup` from procfs_linux.go: split the file
content on newlines and scan for the devices line. -/
def containerNameFromProcCgroup (content : String) : Except String String :=
  findDevicesLine (goSplit '\n' content.data)

/-- Go `error` values distinguished by `GetFullContainerName`:
`os.ErrNotExist` (what `os.IsNotExist` recognises) versus every other error,
carried as its message text. -/
inductive GoError where
  | notExist : GoError
  | other (msg : String) : GoError
deriving DecidableEq

/-- The path `path.Join("/proc", strconv.Itoa(pid), "cgroup")`. -/
def procCgroupPath (pid : Int) : String :=
  "/proc/" ++ toString pid ++ "/cgroup"

/-- `GetFullContainerName` from procfs_linux.go, over an explicit `readFile`
world: read the pid's cgroup file; a not-found read error is mapped to
`os.ErrNotExist`, any other read error is returned unchanged, and a
successful read is parsed by `containerNameFromProcCgroup`. -/
def GetFullContainerName (readFile : String → Except GoError String) (pid : Int) :
    Except GoError String :=
  match readFile (procCgroupPath pid) with
  | Except.error e => if e = GoError.notExist then Except.error GoError.notExist else Except.error e
  | Except.ok content =>
    match containerNameFromProcCgroup content with
    | Except.error msg => Except.error (GoError.other msg)
    | Except.ok res => Except.ok res

/-- Go `strconv.Atoi`: optional sign, then only ASCII digits, non-empty,
value within the 64-bit int range. -/
def goAtoi (s : String) : Option Int :=
  let signed : Bool × List Char :=
    match s.data with
    | '-' :: rest => (true, rest)
    | '+' :: rest => (false, rest)
    | cs => (false, cs)
  let ds := signed.2
  if ds.isEmpty then none
  else if ds.all (fun c => c.isDigit) then
    let n : Int := Int.ofNat (ds.foldl (fun a c => a * 10 + (c.toNat - 48)) 0)
    let v : Int := if signed.1 then -n else n
    if -(2 ^ 63) ≤ v ∧ v < 2 ^ 63 then some v else none
  else none

/-- Accumulator loop of Go `strings.FieldsFunc`: `acc` holds the reversed
characters of the field being built. -/
def fieldsAux (f : Char → Bool) : List Char → List Char → List (List Char)
  | acc, [] => if acc.isEmpty then [] else [acc.reverse]
  | acc, c :: cs =>
    if f c then
      if acc.isEmpty then fieldsAux f [] cs
      else acc.reverse :: fieldsAux f [] cs
    else fieldsAux f (c :: acc) cs

/-- Go `strings.FieldsFunc`: split at runs of characters satisfying `f`,
keeping only the non-empty fields. -/
def goFieldsFunc (f : Char → Bool) (cs : List Char) : List (List Char) :=
  fieldsAux f [] cs

/-- One entry returned by `Readdir`, together with the outcome that reading
`/proc/<name>/cmdline` would have for it (`none`: the read fails, e.g. the
process exited mid-scan). -/
structure DirEntry where
  name : String
  isDir : Bool
  cmdline : Option String

/-- One `Readdir` batch result: a list of entries, or a non-EOF read error. -/
inductive Batch where
  | ok (entries : List DirEntry) : Batch
  | err : Batch

/-- The `/proc` directory as seen by one scan: whether `os.Open` succeeds,
and the successive `Readdir` batch results (the end of the list is `io.EOF`). -/
structure ProcRoot where
  openOk : Bool
  batches : List Batch

/-- The per-entry body of the `getPids` loop: skip non-directories,
non-numeric names, unreadable cmdline records and empty token lists;
otherwise test the first whitespace/colon-delimited token of the part of the
cmdline record before the first NUL byte against the pattern. -/
def processEntry (re : String → Bool) (e : DirEntry) : Option Int :=
  if !e.isDir then none
  else
    match goAtoi e.name with
    | none => none
    | some pid =>
      match e.cmdline with
      | none => none
      | some cmdline =>
        match goSplitN '\x00' 2 cmdline.data with
        | [] => none
        | p0 :: _ =>
          match goFieldsFunc (fun c => goIsSpace c || c == ':') p0 with
          | [] => none
          | exe0 :: _ => if re (String.mk exe0) then some pid else none

/-- The pids matched within one batch of directory entries, in entry order. -/
def scanEntries (re : String → Bool) (es : List DirEntry) : List Int :=
  es.filterMap (processEntry re)

/-- The `Readdir` loop of `getPids`: the end of the batch list is `io.EOF`
(return the accumulated pids), a `Batch.err` is a non-EOF error (return
nil, dropping everything accumulated). -/
def readBatches (re : String → Bool) : List Batch → List Int → List Int
  | [], pids => pids
  | Batch.err :: _, _ => []
  | Batch.ok es :: rest, pids => readBatches re rest (pids ++ scanEntries re es)

/-- `getPids` from procfs_linux.go over an explicit `/proc` state; the Go
`nil` returned when `os.Open` fails or a batch read fails is the empty
list. -/
def getPids (re : String → Bool) (root : ProcRoot) : List Int :=
  if root.openOk then readBatches re root.batches [] else []

/-- A scan abort in the sense of §4.1: the root directory cannot be opened,
or some `Readdir` batch fails with a non-EOF error (after any number of
successful batches). -/
def scanAborted (root : ProcRoot) : Prop :=
  root.openOk = false ∨
  ∃ pre post, root.batches = List.map Batch.ok pre ++ Batch.err :: post

/-- Abstract syntax of the fragment of Go regular expressions the code
builds: literal characters, concatenation, alternation, and the `^` and `$`
assertions. -/
inductive Regex where
  | eps : Regex
  | char (c : Char) : Regex
  | seq (a b : Regex) : Regex
  | alt (a b : Regex) : Regex
  | bol : Regex
  | eol : Regex

/-- Match `r` against `full` starting at position `pos`, with success
continuation `k` applied to the position after the match. -/
def rmatch : Regex → List Char → Nat → (Nat → Bool) → Bool
  | Regex.eps, _, pos, k => k pos
  | Regex.char c, full, pos, k =>
    match full.drop pos with
    | [] => false
    | d :: _ => (c == d) && k (pos + 1)
  | Regex.seq a b, full, pos, k => rmatch a full pos (fun p => rmatch b full p k)
  | Regex.alt a b, full, pos, k => rmatch a full pos k || rmatch b full pos k
  | Regex.bol, _, pos, k => (pos == 0) && k pos
  | Regex.eol, full, pos, k => (pos == full.length) && k pos

/-- Go `MatchString`: unanchored search, true when the expression matches
starting at some position of the string. -/
def goMatchString (r : Regex) (s : String) : Bool :=
  (List.range (s.data.length + 1)).any (fun i => rmatch r s.data i (fun _ => true))

/-- The regular expression denoting a literal character sequence. -/
def litRegex : List Char → Regex
  | [] => Regex.eps
  | c :: cs => Regex.seq (Regex.char c) (litRegex cs)

/-- The expression compiled by PidOf, `"(^|/)" ++ name ++ "$"`, for a name
made of literal characters. -/
def anchoredRegex (name : String) : Regex :=
  Regex.seq (Regex.alt Regex.bol (Regex.char '/')) (Regex.seq (litRegex name.data) Regex.eol)

/-- Characters that regexp treats literally (a sufficient whitelist: ASCII
letters and digits, dash, underscore, slash, space). A name made of these
compiles successfully both bare and inside `(^|/)name$`. -/
def isRegexLiteralChar (c : Char) : Bool :=
  c.isAlphanum || c == '-' || c == '_' || c == '/' || c == ' '

/-- Names for which the regex model is exact: every character is literal. -/
def isLiteralStr (s : String) : Bool :=
  s.data.all isRegexLiteralChar

/-- The matcher `regexp.Compile("(^|/)" ++ name ++ "$").MatchString` used by
PidOf (literal-name fragment). -/
def pidofMatcher (name : String) : String → Bool :=
  fun s => goMatchString (anchoredRegex name) s

/-- The matcher `regexp.Compile(name).MatchString` used by PKill
(literal-name fragment): unanchored substring search. -/
def pkillMatcher (name : String) : String → Bool :=
  fun s => goMatchString (litRegex name.data) s

/-- `PidOf` from procfs_linux.go: reject the empty name, otherwise scan with
the anchored pattern; Go's `len(name) == 0` test is the test for the empty
string. -/
def PidOf (root : ProcRoot) (name : String) : Except String (List Int) :=
  if name = "" then Except.error "name should not be empty"
  else Except.ok (getPids (pidofMatcher name) root)

/-- Lower-case hexadecimal digit. -/
def hexDigit (n : Nat) : Char :=
  if n < 10 then Char.ofNat (48 + n) else Char.ofNat (87 + n)

/-- Go `%q` escaping of one character (exact for ASCII; other printable
runes are kept verbatim). -/
def quoteChar (c : Char) : List Char :=
  if c = '"' then ['\\', '"']
  else if c = '\\' then ['\\', '\\']
  else if c = '\n' then ['\\', 'n']
  else if c = '\t' then ['\\', 't']
  else if c = '\r' then ['\\', 'r']
  else if c = '\x07' then ['\\', 'a']
  else if c = '\x08' then ['\\', 'b']
  else if c = '\x0b' then ['\\', 'v']
  else if c = '\x0c' then ['\\', 'f']
  else if c.toNat < 32 ∨ c.toNat = 127 then
    ['\\', 'x', hexDigit (c.toNat / 16), hexDigit (c.toNat % 16)]
  else [c]

/-- Go `fmt` verb `%q` on a string: double quotes around the escaped body. -/
def goQuote (s : String) : String :=
  String.mk ('"' :: (s.data.map quoteChar).flatten ++ ['"'])

/-- The error-collecting loop body of PKill: a failed signal delivery
appends its message unless an identical message was already collected. -/
def pkillErrmsgs (kill : Int → Int → Option String) (sig : Int) (pids : List Int) :
    List String :=
  pids.foldl
    (fun acc pid =>
      match kill pid sig with
      | none => acc
      | some m => if m ∈ acc then acc else acc ++ [m])
    []

/-- `PKill` from procfs_linux.go: reject the empty name; compile the raw
(unanchored) pattern; report a distinct error when the scan yields no pids;
otherwise signal every pid (`kill pid sig` is `syscall.Kill`, `none` means
success), collect de-duplicated failure messages, and return success, the
single message, or the bracketed comma join. -/
def PKill (kill : Int → Int → Option String) (root : ProcRoot) (name : String) (sig : Int) :
    Option String :=
  if name = "" then some "name should not be empty"
  else
    let pids := getPids (pkillMatcher name) root
    if pids.length = 0 then
      some ("unable to fetch pids for process name : " ++ goQuote name)
    else
      let errmsgs := pkillErrmsgs kill sig pids
      if errmsgs.length = 0 then none
      else if errmsgs.length = 1 then some (errmsgs.headD "")
      else some ("[ " ++ String.intercalate "," errmsgs ++ " ]")

/-- First-occurrence de-duplication of a message list: the fold PKill's
collection loop performs over the failure messages in delivery order. -/
def firstDedup (l : List String) : List String :=
  l.foldl (fun acc m => if m ∈ acc then acc else acc ++ [m]) []

/-- Executable substring test (used to state what an aggregate message does
not contain). -/
def strContains (s sub : String) : Bool :=
  (List.range (s.data.length + 1)).any
    (fun i => (s.data.drop i).take sub.data.length == sub.data)

theorem findDevicesLine_cons_neg (line : List Char) (rest : List (List Char))
    (h : ¬ devLine line) :
    findDevicesLine (line :: rest) = findDevicesLine rest := by
  simp only [findDevicesLine]
  rw [if_neg h]

theorem findDevicesLine_none : ∀ (lines : List (List Char)),
    (∀ l ∈ lines, ¬ devLine l) →
    findDevicesLine lines = Except.error "could not find devices cgroup location"
  | [], _ => rfl
  | line :: rest, h => by
    rw [findDevicesLine_cons_neg line rest (h line (List.mem_cons_self _ _))]
    exact findDevicesLine_none rest (fun l hl => h l (List.mem_cons_of_mem _ hl))

/-- C3 (counterexample): on the exact text `"4:devices:/docker/nginx"` the
parser does not yield `"docker/nginx"`; it yields `"/docker/nginx"`, the
trimmed third field with its leading slash. -/
theorem claim_C3_counterexample :
    containerNameFromProcCgroup "4:devices:/docker/nginx" ≠ Except.ok "docker/nginx" ∧
    containerNameFromProcCgroup "4:devices:/docker/nginx" = Except.ok "/docker/nginx" := by
  constructor
  · intro h
    have h2 : containerNameFromProcCgroup "4:devices:/docker/nginx" =
        Except.ok "/docker/nginx" := rfl
    rw [h2] at h
    have h3 : ("/docker/nginx" : String) = "docker/nginx" := Except.ok.inj h
    exact absurd h3 (by decide)
  · rfl

/-- C3 (amended): for any cgroup-file text containing the line
`"4:devices:/docker/nginx"`, with no earlier line whose middle field is
`"devices"`, `containerNameFromProcCgroup` succeeds and yields
`"/docker/nginx"` — the third field with leading/trailing whitespace
trimmed (the leading slash is part of the field and is kept). -/
theorem claim_C3 (content : String) (pre post : List (List Char))
    (hsplit : goSplit '\n' content.data = pre ++ "4:devices:/docker/nginx".data :: post)
    (hpre : ∀ l ∈ pre, ¬ devLine l) :
    containerNameFromProcCgroup content = Except.ok "/docker/nginx" := by
  unfold containerNameFromProcCgroup
  rw [hsplit]
  clear hsplit
  induction pre with
  | nil => rfl
  | cons l pre ih =>
    rw [List.cons_append, findDevicesLine_cons_neg l _ (hpre l (List.mem_cons_self _ _))]
    exact ih (fun x hx => hpre x (List.mem_cons_of_mem _ hx))

theorem claim_C3_witness :
    containerNameFromProcCgroup "1:cpu:/\n4:devices:/docker/nginx" =
      Except.ok "/docker/nginx" :=
  claim_C3 _ ["1:cpu:/".data] [] rfl (by decide)

/-- C9: when no line splits on ":" into exactly three fields with middle
field exactly `"devices"`, the parse fails with
`"could not find devices cgroup location"`; in particular a line where
`devices` appears only inside a comma-separated subsystem list does not
match. -/
theorem claim_C9 :
    (∀ content : String, (∀ l ∈ goSplit '\n' content.data, ¬ devLine l) →
      containerNameFromProcCgroup content =
        Except.error "could not find devices cgroup location") ∧
    containerNameFromProcCgroup "2:cpu,devices:/a" =
      Except.error "could not find devices cgroup location" := by
  constructor
  · intro content h
    unfold containerNameFromProcCgroup
    exact findDevicesLine_none _ h
  · rfl

theorem claim_C9_witness :
    containerNameFromProcCgroup "1:cpu:/a\n2:memory:/b" =
      Except.error "could not find devices cgroup location" :=
  claim_C9.1 "1:cpu:/a\n2:memory:/b" (by decide)

/-- C8: a not-found read of the pid's cgroup membership file yields the
distinct `os.ErrNotExist` error, any other read failure is returned to the
caller unchanged, and the two are distinguishable. -/
theorem claim_C8 (readFile : String → Except GoError String) (pid : Int) :
    (readFile (procCgroupPath pid) = Except.error GoError.notExist →
      GetFullContainerName readFile pid = Except.error GoError.notExist) ∧
    (∀ msg, readFile (procCgroupPath pid) = Except.error (GoError.other msg) →
      GetFullContainerName readFile pid = Except.error (GoError.other msg)) ∧
    (∀ msg, GoError.notExist ≠ GoError.other msg) := by
  refine ⟨?_, ?_, ?_⟩
  · intro h
    unfold GetFullContainerName
    rw [h]
    rfl
  · intro msg h
    unfold GetFullContainerName
    rw [h]
    simp
  · intro msg h
    cases h

theorem claim_C8_witness :
    GetFullContainerName (fun _ => Except.error GoError.notExist) 7 =
      Except.error GoError.notExist :=
  (claim_C8 (fun _ => Except.error GoError.notExist) 7).1 rfl

theorem readBatches_abort (re : String → Bool) :
    ∀ (pre : List (List DirEntry)) (post : List Batch) (acc : List Int),
      readBatches re (List.map Batch.ok pre ++ Batch.err :: post) acc = []
  | [], _, _ => rfl
  | es :: pre, post, acc => by
    rw [List.map_cons, List.cons_append]
    show readBatches re (List.map Batch.ok pre ++ Batch.err :: post)
      (acc ++ scanEntries re es) = []
    exact readBatches_abort re pre post _

theorem getPids_of_aborted (re : String → Bool) (root : ProcRoot) (h : scanAborted root) :
    getPids re root = [] := by
  cases hop : root.openOk
  · unfold getPids
    rw [hop]
    rfl
  · rcases h with h | ⟨pre, post, hb⟩
    · rw [hop] at h
      exact absurd h (by decide)
    · unfold getPids
      rw [hop, hb]
      exact readBatches_abort re pre post []

/-- C4: if opening `/proc` fails, or any `Readdir` batch fails with a
non-EOF error, `getPids` returns the empty (nil) result — no partial list,
regardless of entries already matched — indistinguishable from a scan with
no matches. -/
theorem claim_C4 (re : String → Bool) (root : ProcRoot) (h : scanAborted root) :
    getPids re root = [] :=
  getPids_of_aborted re root h

theorem claim_C4_witness :
    getPids (fun _ => true) ⟨true, [Batch.ok [⟨"1", true, some "x"⟩], Batch.err]⟩ = [] :=
  claim_C4 (fun _ => true) _ (Or.inr ⟨[[⟨"1", true, some "x"⟩]], [], rfl⟩)

theorem processEntry_of_unreadable (re : String → Bool) (n : String) (d : Bool) :
    processEntry re ⟨n, d, none⟩ = none := by
  unfold processEntry
  cases d
  · rfl
  · cases ha : goAtoi n <;> simp [ha]

theorem scanEntries_skip (re : String → Bool) (l r : List DirEntry) (n : String) (d : Bool) :
    scanEntries re (l ++ ⟨n, d, none⟩ :: r) = scanEntries re (l ++ r) := by
  simp [scanEntries, List.filterMap_append, List.filterMap_cons, processEntry_of_unreadable]

theorem readBatches_cong (re : String → Bool) (es es' : List DirEntry)
    (hse : scanEntries re es = scanEntries re es') :
    ∀ (bs1 bs2 : List Batch) (acc : List Int),
      readBatches re (bs1 ++ Batch.ok es :: bs2) acc =
      readBatches re (bs1 ++ Batch.ok es' :: bs2) acc
  | [], bs2, acc => by
    show readBatches re bs2 (acc ++ scanEntries re es) =
      readBatches re bs2 (acc ++ scanEntries re es')
    rw [hse]
  | Batch.err :: _, _, _ => rfl
  | Batch.ok es0 :: bs1, bs2, acc => by
    show readBatches re (bs1 ++ Batch.ok es :: bs2) (acc ++ scanEntries re es0) =
      readBatches re (bs1 ++ Batch.ok es' :: bs2) (acc ++ scanEntries re es0)
    exact readBatches_cong re es es' hse bs1 bs2 _

/-- C5: an entry whose cmdline record cannot be read (here: the read result
is `none`) is silently skipped — the scan result is exactly the result of
the same scan without that entry, so every other matching pid is still
returned and no error is reported. -/
theorem claim_C5 (re : String → Bool) (bs1 bs2 : List Batch) (l r : List DirEntry)
    (n : String) (d : Bool) :
    getPids re ⟨true, bs1 ++ Batch.ok (l ++ ⟨n, d, none⟩ :: r) :: bs2⟩ =
    getPids re ⟨true, bs1 ++ Batch.ok (l ++ r) :: bs2⟩ := by
  show readBatches re (bs1 ++ Batch.ok (l ++ ⟨n, d, none⟩ :: r) :: bs2) [] =
    readBatches re (bs1 ++ Batch.ok (l ++ r) :: bs2) []
  exact readBatches_cong re _ _ (scanEntries_skip re l r n d) bs1 bs2 []

theorem pkill_noMatch (kill : Int → Int → Option String) (sig : Int) (root : ProcRoot)
    (name : String) (h1 : name ≠ "") (h2 : getPids (pkillMatcher name) root = []) :
    PKill kill root name sig =
      some ("unable to fetch pids for process name : " ++ goQuote name) := by
  unfold PKill
  rw [if_neg h1, h2]
  rfl

/-- C6: with a non-empty pattern and a scan returning zero pids, PKill
returns the distinct no-match error while PidOf returns the empty pid list
with no error. -/
theorem claim_C6 (kill : Int → Int → Option String) (sig : Int) (root : ProcRoot)
    (name : String) (h1 : name ≠ "") :
    (getPids (pkillMatcher name) root = [] →
      PKill kill root name sig =
        some ("unable to fetch pids for process name : " ++ goQuote name)) ∧
    (getPids (pidofMatcher name) root = [] → PidOf root name = Except.ok []) := by
  constructor
  · exact fun h2 => pkill_noMatch kill sig root name h1 h2
  · intro h2
    unfold PidOf
    rw [if_neg h1, h2]

theorem claim_C6_witness :
    PKill (fun _ _ => none) ⟨true, []⟩ "zz" 9 =
      some "unable to fetch pids for process name : \"zz\"" ∧
    PidOf ⟨true, []⟩ "zz" = Except.ok [] := by
  have h := claim_C6 (fun _ _ => none) 9 ⟨true, []⟩ "zz" (by decide)
  exact ⟨(h.1 rfl).trans rfl, h.2 rfl⟩

/-- C7: on the empty name both PidOf and PKill fail immediately with the
validation error, for every filesystem state and every signal-delivery
behaviour — no filesystem access and no pattern handling takes place. -/
theorem claim_C7 (root : ProcRoot) (kill : Int → Int → Option String) (sig : Int) :
    PidOf root "" = Except.error "name should not be empty" ∧
    PKill kill root "" sig = some "name should not be empty" :=
  ⟨rfl, rfl⟩

/-- C10: an aborted scan (root unopenable, or a batch read error) makes
`getPids` return nil, and PKill then reports exactly the same
"unable to fetch pids" error as for a scan that genuinely matched nothing,
so the two situations are indistinguishable to PKill's caller. -/
theorem claim_C10 (kill : Int → Int → Option String) (sig : Int) (name : String)
    (rootA rootB : ProcRoot) (h1 : name ≠ "") (hA : scanAborted rootA)
    (hB : getPids (pkillMatcher name) rootB = []) :
    PKill kill rootA name sig =
      some ("unable to fetch pids for process name : " ++ goQuote name) ∧
    PKill kill rootA name sig = PKill kill rootB name sig := by
  have ha := pkill_noMatch kill sig rootA name h1 (getPids_of_aborted _ rootA hA)
  have hb := pkill_noMatch kill sig rootB name h1 hB
  exact ⟨ha, ha.trans hb.symm⟩

theorem claim_C10_witness :
    PKill (fun _ _ => none) ⟨false, []⟩ "p" 9 =
      some "unable to fetch pids for process name : \"p\"" := by
  have h := claim_C10 (fun _ _ => none) 9 "p" ⟨false, []⟩ ⟨true, []⟩ (by decide)
    (Or.inl rfl) rfl
  exact h.1.trans rfl

theorem pkillErrmsgs_foldl (kill : Int → Int → Option String) (sig : Int) :
    ∀ (pids : List Int) (acc : List String),
      pids.foldl
        (fun acc pid =>
          match kill pid sig with
          | none => acc
          | some m => if m ∈ acc then acc else acc ++ [m]) acc =
      (pids.filterMap (fun pid => kill pid sig)).foldl
        (fun acc m => if m ∈ acc then acc else acc ++ [m]) acc
  | [], _ => rfl
  | pid :: pids, acc => by
    rw [List.foldl_cons, List.filterMap_cons]
    cases hk : kill pid sig with
    | none =>
      simp only [hk]
      exact pkillErrmsgs_foldl kill sig pids acc
    | some m =>
      simp only [hk, List.foldl_cons]
      exact pkillErrmsgs_foldl kill sig pids _

theorem foldl_dedup_decomp :
    ∀ (l acc : List String),
      ∃ s, l.foldl (fun acc m => if m ∈ acc then acc else acc ++ [m]) acc = acc ++ s ∧
        s.Sublist l
  | [], acc => ⟨[], by simp, List.nil_sublist []⟩
  | m :: l, acc => by
    rw [List.foldl_cons]
    by_cases hm : m ∈ acc
    · obtain ⟨s, hs, hsub⟩ := foldl_dedup_decomp l acc
      rw [if_pos hm]
      exact ⟨s, hs, hsub.cons m⟩
    · obtain ⟨s, hs, hsub⟩ := foldl_dedup_decomp l (acc ++ [m])
      rw [if_neg hm]
      refine ⟨m :: s, ?_, hsub.cons₂ m⟩
      rw [hs, List.append_assoc]
      rfl

theorem foldl_dedup_mem :
    ∀ (l acc : List String) (x : String),
      x ∈ l.foldl (fun acc m => if m ∈ acc then acc else acc ++ [m]) acc ↔
        x ∈ acc ∨ x ∈ l
  | [], acc, x => by simp
  | m :: l, acc, x => by
    rw [List.foldl_cons]
    by_cases hm : m ∈ acc
    · rw [if_pos hm, foldl_dedup_mem l acc x, List.mem_cons]
      constructor
      · rintro (h | h)
        · exact Or.inl h
        · exact Or.inr (Or.inr h)
      · rintro (h | h | h)
        · exact Or.inl h
        · exact Or.inl (h ▸ hm)
        · exact Or.inr h
    · rw [if_neg hm, foldl_dedup_mem l (acc ++ [m]) x, List.mem_append,
        List.mem_singleton, List.mem_cons]
      tauto

theorem foldl_dedup_nodup :
    ∀ (l acc : List String), acc.Nodup →
      (l.foldl (fun acc m => if m ∈ acc then acc else acc ++ [m]) acc).Nodup
  | [], _, h => h
  | m :: l, acc, h => by
    rw [List.foldl_cons]
    by_cases hm : m ∈ acc
    · rw [if_pos hm]
      exact foldl_dedup_nodup l acc h
    · rw [if_neg hm]
      refine foldl_dedup_nodup l (acc ++ [m]) ?_
      simp [List.nodup_append, h, hm]

/-- C2 (counterexample): two pids failing with the distinct messages "A"
and "B" yield the aggregate text `"[ A,B ]"`: the messages are joined with
`","`, and the produced text does not contain `"A, B"`, refuting the
claimed `", "` separator. -/
theorem claim_C2_counterexample :
    PKill (fun pid _ => if pid = 1 then some "A" else some "B")
      ⟨true, [Batch.ok [⟨"1", true, some "p"⟩, ⟨"2", true, some "p"⟩]]⟩ "p" 9 =
      some "[ A,B ]" ∧
    strContains "[ A,B ]" "A, B" = false :=
  ⟨rfl, rfl⟩

/-- C2 (amended): signal-delivery failure messages are collected with
duplicates (by exact text) suppressed keeping first-occurrence order
(`firstDedup` of the failure messages in delivery order: the collected list
has no duplicates, is a sublist of the failure sequence, and contains
exactly the messages that occurred); after attempting every matched pid,
zero messages yield success, exactly one yields that message, and more than
one yields the distinct messages joined with `","` wrapped in `"[ "` and
`" ]"`. -/
theorem claim_C2 (kill : Int → Int → Option String) (root : ProcRoot) (name : String)
    (sig : Int) (h1 : name ≠ "") (h2 : getPids (pkillMatcher name) root ≠ []) :
    (firstDedup ((getPids (pkillMatcher name) root).filterMap
        (fun pid => kill pid sig))).Nodup ∧
    List.Sublist
      (firstDedup ((getPids (pkillMatcher name) root).filterMap (fun pid => kill pid sig)))
      ((getPids (pkillMatcher name) root).filterMap (fun pid => kill pid sig)) ∧
    (∀ m, m ∈ firstDedup ((getPids (pkillMatcher name) root).filterMap
        (fun pid => kill pid sig)) ↔
      m ∈ (getPids (pkillMatcher name) root).filterMap (fun pid => kill pid sig)) ∧
    PKill kill root name sig =
      (match firstDedup ((getPids (pkillMatcher name) root).filterMap
          (fun pid => kill pid sig)) with
       | [] => none
       | [m] => some m
       | ms => some ("[ " ++ String.intercalate "," ms ++ " ]")) := by
  refine ⟨foldl_dedup_nodup _ [] List.nodup_nil, ?_, ?_, ?_⟩
  · obtain ⟨s, hs, hsub⟩ :=
      foldl_dedup_decomp ((getPids (pkillMatcher name) root).filterMap
        (fun pid => kill pid sig)) []
    unfold firstDedup
    rw [hs]
    simpa using hsub
  · intro m
    unfold firstDedup
    rw [foldl_dedup_mem]
    simp
  · unfold PKill
    rw [if_neg h1,
      if_neg (fun h => h2 (List.length_eq_zero.mp h))]
    have he : pkillErrmsgs kill sig (getPids (pkillMatcher name) root) =
        firstDedup ((getPids (pkillMatcher name) root).filterMap (fun pid => kill pid sig)) :=
      pkillErrmsgs_foldl kill sig (getPids (pkillMatcher name) root) []
    rw [he]
    rcases firstDedup ((getPids (pkillMatcher name) root).filterMap
        (fun pid => kill pid sig)) with _ | ⟨m, _ | ⟨m2, ms⟩⟩
    · rfl
    · rfl
    · simp [List.length_cons]

theorem claim_C2_witness :
    PKill (fun _ _ => some "E")
      ⟨true, [Batch.ok [⟨"1", true, some "p"⟩, ⟨"2", true, some "p"⟩]]⟩ "p" 9 =
      some "E" := by
  have h := claim_C2 (fun _ _ => some "E")
    ⟨true, [Batch.ok [⟨"1", true, some "p"⟩, ⟨"2", true, some "p"⟩]]⟩ "p" 9
    (by decide) (by decide)
  exact h.2.2.2.trans (by rfl)

theorem rmatch_eps_eq (full : List Char) (pos : Nat) (k : Nat → Bool) :
    rmatch Regex.eps full pos k = k pos := rfl

theorem rmatch_char_eq (c : Char) (full : List Char) (pos : Nat) (k : Nat → Bool) :
    rmatch (Regex.char c) full pos k =
      (match full.drop pos with
       | [] => false
       | d :: _ => (c == d) && k (pos + 1)) := rfl

theorem rmatch_seq_eq (a b : Regex) (full : List Char) (pos : Nat) (k : Nat → Bool) :
    rmatch (Regex.seq a b) full pos k = rmatch a full pos (fun p => rmatch b full p k) := rfl

theorem rmatch_alt_eq (a b : Regex) (full : List Char) (pos : Nat) (k : Nat → Bool) :
    rmatch (Regex.alt a b) full pos k = (rmatch a full pos k || rmatch b full pos k) := rfl

theorem rmatch_bol_eq (full : List Char) (pos : Nat) (k : Nat → Bool) :
    rmatch Regex.bol full pos k = ((pos == 0) && k pos) := rfl

theorem rmatch_eol_eq (full : List Char) (pos : Nat) (k : Nat → Bool) :
    rmatch Regex.eol full pos k = ((pos == full.length) && k pos) := rfl

theorem rmatch_lit (full : List Char) (k : Nat → Bool) :
    ∀ (cs : List Char) (p : Nat),
      rmatch (litRegex cs) full p k = true ↔
        ∃ rest, full.drop p = cs ++ rest ∧ k (p + cs.length) = true
  | [], p => by
    simp [litRegex, rmatch_eps_eq]
  | c :: cs, p => by
    rw [litRegex, rmatch_seq_eq, rmatch_char_eq]
    cases hd : full.drop p with
    | nil => simp
    | cons d tail =>
      have htail : full.drop (p + 1) = tail := by
        rw [← List.tail_drop, hd, List.tail_cons]
      have harith : p + 1 + cs.length = p + (c :: cs).length := by
        simp [List.length_cons]
        omega
      rw [Bool.and_eq_true, beq_iff_eq, rmatch_lit full k cs (p + 1), htail, harith]
      constructor
      · rintro ⟨rfl, rest, hres, hk⟩
        exact ⟨rest, by rw [List.cons_append, hres], hk⟩
      · rintro ⟨rest, hres, hk⟩
        rw [List.cons_append] at hres
        injection hres with h1 h2
        exact ⟨h1.symm, rest, h2, hk⟩

theorem rmatch_lit_eol (cs full : List Char) (p : Nat) (hp : p ≤ full.length) :
    rmatch (Regex.seq (litRegex cs) Regex.eol) full p (fun _ => true) = true ↔
      full.drop p = cs := by
  rw [rmatch_seq_eq, rmatch_lit]
  constructor
  · rintro ⟨rest, hdrop, hk⟩
    have hk2 : p + cs.length = full.length := by
      have h3 : ((p + cs.length == full.length) && true) = true := hk
      simpa using h3
    have hlen := congrArg List.length hdrop
    rw [List.length_drop, List.length_append] at hlen
    have hrest : rest = [] := List.length_eq_zero.mp (by omega)
    rw [hrest, List.append_nil] at hdrop
    exact hdrop
  · intro hdrop
    refine ⟨[], by rw [List.append_nil]; exact hdrop, ?_⟩
    have hlen := congrArg List.length hdrop
    rw [List.length_drop] at hlen
    show ((p + cs.length == full.length) && true) = true
    simp only [Bool.and_true, beq_iff_eq]
    omega

theorem goMatch_anchored_iff (name t : String) :
    goMatchString (anchoredRegex name) t = true ↔
      t = name ∨ ∃ pre, t.data = pre ++ '/' :: name.data := by
  unfold goMatchString anchoredRegex
  rw [List.any_eq_true]
  constructor
  · rintro ⟨i, hmem, hm⟩
    rw [List.mem_range] at hmem
    rw [rmatch_seq_eq, rmatch_alt_eq, Bool.or_eq_true] at hm
    rcases hm with hb | hc
    · rw [rmatch_bol_eq, Bool.and_eq_true] at hb
      obtain ⟨hi0, hK⟩ := hb
      have hi0' : i = 0 := by simpa using hi0
      subst hi0'
      have hdrop := (rmatch_lit_eol name.data t.data 0 (Nat.zero_le _)).mp hK
      rw [List.drop_zero] at hdrop
      left
      cases t
      cases name
      exact congrArg String.mk hdrop
    · rw [rmatch_char_eq] at hc
      cases hd : t.data.drop i with
      | nil =>
        rw [hd] at hc
        exact absurd hc (by simp)
      | cons d tail =>
        rw [hd] at hc
        rw [Bool.and_eq_true, beq_iff_eq] at hc
        obtain ⟨hsl, hK⟩ := hc
        have hlt : i < t.data.length := by
          by_contra hge
          push_neg at hge
          have h0 : ([] : List Char) = d :: tail := by
            rw [← List.drop_eq_nil_of_le hge, hd]
          exact List.noConfusion h0
        have hK2 := (rmatch_lit_eol name.data t.data (i + 1) (by omega)).mp hK
        have htail : t.data.drop (i + 1) = tail := by
          rw [← List.tail_drop, hd, List.tail_cons]
        right
        refine ⟨t.data.take i, ?_⟩
        conv_lhs => rw [← List.take_append_drop i t.data]
        rw [hd]
        have htn : tail = name.data := by rw [← htail, hK2]
        rw [← hsl, htn]
  · rintro (rfl | ⟨pre, hpre⟩)
    · refine ⟨0, List.mem_range.mpr (Nat.succ_pos _), ?_⟩
      rw [rmatch_seq_eq, rmatch_alt_eq, Bool.or_eq_true]
      left
      rw [rmatch_bol_eq, Bool.and_eq_true]
      refine ⟨rfl, ?_⟩
      rw [rmatch_lit_eol t.data t.data 0 (Nat.zero_le _)]
      exact List.drop_zero _
    · have hlen := congrArg List.length hpre
      rw [List.length_append, List.length_cons] at hlen
      refine ⟨pre.length, List.mem_range.mpr (by omega), ?_⟩
      rw [rmatch_seq_eq, rmatch_alt_eq, Bool.or_eq_true]
      right
      rw [rmatch_char_eq]
      have hdrop : t.data.drop pre.length = '/' :: name.data := by
        rw [hpre, List.drop_left]
      rw [hdrop]
      rw [Bool.and_eq_true]
      refine ⟨rfl, ?_⟩
      rw [rmatch_lit_eol name.data t.data (pre.length + 1) (by omega)]
      rw [← List.tail_drop, hdrop, List.tail_cons]

/-- C1: for every non-empty literal name, the anchored PidOf matcher
(`"(^|/)" ++ name ++ "$"`) accepts a token exactly when the token is the
name itself or ends in `"/" ++ name` — so `"/usr/sbin/nginx"` matches
`"nginx"` but `"nginx-helper"` (name only as a proper substring) does not —
while the unanchored PKill matcher for `"ngin"` does accept
`"nginx-helper"`; accordingly PidOf returns only the path-suffix pid and
PKill's scan matches both. -/
theorem claim_C1 :
    (∀ (name t : String), name ≠ "" → isLiteralStr name = true →
      (pidofMatcher name t = true ↔
        (t = name ∨ ∃ pre, t.data = pre ++ '/' :: name.data))) ∧
    pidofMatcher "nginx" "/usr/sbin/nginx" = true ∧
    pidofMatcher "nginx" "nginx-helper" = false ∧
    pkillMatcher "ngin" "nginx-helper" = true ∧
    PidOf ⟨true, [Batch.ok [⟨"10", true, some "/usr/sbin/nginx"⟩,
      ⟨"11", true, some "nginx-helper"⟩]]⟩ "nginx" = Except.ok [10] ∧
    getPids (pkillMatcher "ngin") ⟨true, [Batch.ok [⟨"10", true, some "/usr/sbin/nginx"⟩,
      ⟨"11", true, some "nginx-helper"⟩]]⟩ = [10, 11] :=
  ⟨fun name t _ _ => goMatch_anchored_iff name t, rfl, rfl, rfl, rfl, rfl⟩

theorem claim_C1_witness : pidofMatcher "nginx" "nginx" = true :=
  (claim_C1.1 "nginx" "nginx" (by decide) (by decide)).mpr (Or.inl rfl)

end Procfs
